import Mathlib

set_option maxRecDepth 100000

/-!
Verification development for the neovim go-client repository.

The development shallowly embeds the parts of the code that the claims
talk about: the MessagePack value codec used by the test helpers pack
and unpack, the Batch builder of nvim/nvim.go (call, Execute, the
batchArg marshaller), the error fixing of call responses (fixError),
the Close teardown of the client, the extension payload codec
(encodeExt / decodeExt) and the method wrappers (Call, CallDict,
ExecuteLua). Go byte values are modelled as Nat (always below 256 in
encoder output), Go int and int64 as Int, Go slices that may be nil as
Option of a list.
-/

namespace NvimClient

/-! ## MessagePack byte-level codec

Modelled from the spec: the encoder and decoder internals of the
msgpack package (PackInt, PackUint, PackBool, PackFloat, PackString,
PackBinary, PackArrayLen, PackMapLen, PackExtension, PackNil and the
pull-style Decoder) are not under src; only their callers are. The
definitions below follow the spec, section 4.1: every write selects
the shortest valid MessagePack encoding, strings and binary use the
8/16/32-bit length-prefixed forms, array and map length headers are
separate zero-payload values, extensions use the fixext forms for
payload lengths 1, 2, 4, 8 and 16 and the ext8/16/32 forms otherwise.
-/

/-- Big-endian bytes of n, two bytes wide. -/
def be2 (n : Nat) : List Nat := [n / 256 % 256, n % 256]

/-- Big-endian bytes of n, four bytes wide. -/
def be4 (n : Nat) : List Nat :=
  [n / 16777216 % 256, n / 65536 % 256, n / 256 % 256, n % 256]

/-- Big-endian bytes of n, eight bytes wide. -/
def be8 (n : Nat) : List Nat :=
  be4 (n / 4294967296) ++ be4 (n % 4294967296)

/-- Value of a big-endian byte list. -/
def beVal (bs : List Nat) : Nat := bs.foldl (fun acc b => acc * 256 + b) 0

/-- Reinterpret an unsigned value of width w bits as a signed value. -/
def sgn (w : Nat) (u : Nat) : Int :=
  if u < 2 ^ (w - 1) then (u : Int) else (u : Int) - 2 ^ w

/-- MessagePack codec value: the flat token domain of the pack and
unpack test helpers of the msgpack package (src/unnamed/part_002).
Integer wire forms are collapsed to one Int constructor, exactly as
unpack maps both the Int and the Uint decoder types to the Go int
type; floats are carried as their raw 64 wire bits; strings are
carried as their byte content; array and map length headers are
zero-payload values. -/
inductive MPValue where
  | nil
  | bool (b : Bool)
  | int (n : Int)
  | float (bits : Nat)
  | str (bs : List Nat)
  | bin (bs : List Nat)
  | ext (k : Int) (d : List Nat)
  | arr (n : Nat)
  | map (n : Nat)
deriving DecidableEq, Repr

/-- Shortest MessagePack encoding of an unsigned integer (PackUint). -/
def packUint (n : Nat) : List Nat :=
  if n ≤ 0x7f then [n]
  else if n ≤ 0xff then [0xcc, n]
  else if n ≤ 0xffff then 0xcd :: be2 n
  else if n ≤ 0xffffffff then 0xce :: be4 n
  else 0xcf :: be8 (n % 18446744073709551616)

/-- Shortest MessagePack encoding of a signed integer (PackInt);
non-negative values use the unsigned forms. -/
def packInt (n : Int) : List Nat :=
  if 0 ≤ n then packUint n.toNat
  else if -32 ≤ n then [(n + 256).toNat]
  else if -128 ≤ n then [0xd0, (n + 256).toNat]
  else if -32768 ≤ n then 0xd1 :: be2 (n + 65536).toNat
  else if -2147483648 ≤ n then 0xd2 :: be4 (n + 4294967296).toNat
  else 0xd3 :: be8 (n + 18446744073709551616).toNat

/-- MessagePack array length header, shortest form. -/
def packArrayLen (n : Nat) : List Nat :=
  if n ≤ 0xf then [0x90 + n]
  else if n ≤ 0xffff then 0xdc :: be2 n
  else 0xdd :: be4 n

/-- MessagePack map length header, shortest form. -/
def packMapLen (n : Nat) : List Nat :=
  if n ≤ 0xf then [0x80 + n]
  else if n ≤ 0xffff then 0xde :: be2 n
  else 0xdf :: be4 n

/-- MessagePack string header plus content bytes, shortest form. -/
def packStrBytes (bs : List Nat) : List Nat :=
  if bs.length ≤ 0x1f then (0xa0 + bs.length) :: bs
  else if bs.length ≤ 0xff then 0xd9 :: bs.length :: bs
  else if bs.length ≤ 0xffff then 0xda :: be2 bs.length ++ bs
  else 0xdb :: be4 bs.length ++ bs

/-- MessagePack binary header plus content bytes, shortest form. -/
def packBinBytes (bs : List Nat) : List Nat :=
  if bs.length ≤ 0xff then 0xc4 :: bs.length :: bs
  else if bs.length ≤ 0xffff then 0xc5 :: be2 bs.length ++ bs
  else 0xc6 :: be4 bs.length ++ bs

/-- MessagePack extension encoding: fixext forms for payload lengths
1, 2, 4, 8 and 16, otherwise ext8/16/32; the type tag is written as
one byte. -/
def packExt (k : Int) (d : List Nat) : List Nat :=
  let kb := (k % 256).toNat
  if d.length = 1 then 0xd4 :: kb :: d
  else if d.length = 2 then 0xd5 :: kb :: d
  else if d.length = 4 then 0xd6 :: kb :: d
  else if d.length = 8 then 0xd7 :: kb :: d
  else if d.length = 16 then 0xd8 :: kb :: d
  else if d.length ≤ 0xff then 0xc7 :: d.length :: kb :: d
  else if d.length ≤ 0xffff then 0xc8 :: be2 d.length ++ kb :: d
  else 0xc9 :: be4 d.length ++ kb :: d

/-- Encoding of one codec value, dispatching exactly as the pack test
helper dispatches on the Go type of the value. -/
def encodeValue : MPValue → List Nat
  | .nil => [0xc0]
  | .bool false => [0xc2]
  | .bool true => [0xc3]
  | .int n => packInt n
  | .float bits => 0xcb :: be8 (bits % 18446744073709551616)
  | .str bs => packStrBytes bs
  | .bin bs => packBinBytes bs
  | .ext k d => packExt k d
  | .arr n => packArrayLen n
  | .map n => packMapLen n

/-- Encoding of a sequence of codec values: the pack test helper of
src/unnamed/part_002 written over the exact value union (its default
error case is unreachable on this domain). -/
def pack (vs : List MPValue) : List Nat := (vs.map encodeValue).flatten

/-- Take exactly n bytes from the front of a byte list. -/
def takeBytes (n : Nat) (bs : List Nat) : Option (List Nat × List Nat) :=
  if n ≤ bs.length then some (bs.take n, bs.drop n) else none

/-- Read an n-byte big-endian value from the front of a byte list. -/
def readBE (n : Nat) (bs : List Nat) : Option (Nat × List Nat) :=
  (takeBytes n bs).map (fun p => (beVal p.1, p.2))

/-- Decode one MessagePack value from the front of a byte list,
returning the value and the remaining bytes. Integer wire forms all
decode to the int constructor (the Go decoder exposes Int and Uint
types and the unpack helper converts both to the Go int type, with
the uint64 form wrapping modulo two to the sixty-fourth as the Go
conversion int of uint64 does); the float32 wire form is outside
this model since the encoder never emits it. -/
def decodeValue : List Nat → Option (MPValue × List Nat)
  | [] => none
  | b :: bs =>
    if b ≤ 0x7f then some (.int b, bs)
    else if b ≤ 0x8f then some (.map (b - 0x80), bs)
    else if b ≤ 0x9f then some (.arr (b - 0x90), bs)
    else if b ≤ 0xbf then
      (takeBytes (b - 0xa0) bs).map (fun p => (.str p.1, p.2))
    else if b = 0xc0 then some (.nil, bs)
    else if b = 0xc2 then some (.bool false, bs)
    else if b = 0xc3 then some (.bool true, bs)
    else if b = 0xc4 then do
      let (len, r) ← readBE 1 bs
      let (d, r2) ← takeBytes len r
      some (.bin d, r2)
    else if b = 0xc5 then do
      let (len, r) ← readBE 2 bs
      let (d, r2) ← takeBytes len r
      some (.bin d, r2)
    else if b = 0xc6 then do
      let (len, r) ← readBE 4 bs
      let (d, r2) ← takeBytes len r
      some (.bin d, r2)
    else if b = 0xc7 then do
      let (len, r) ← readBE 1 bs
      let (kb, r2) ← readBE 1 r
      let (d, r3) ← takeBytes len r2
      some (.ext (sgn 8 kb) d, r3)
    else if b = 0xc8 then do
      let (len, r) ← readBE 2 bs
      let (kb, r2) ← readBE 1 r
      let (d, r3) ← takeBytes len r2
      some (.ext (sgn 8 kb) d, r3)
    else if b = 0xc9 then do
      let (len, r) ← readBE 4 bs
      let (kb, r2) ← readBE 1 r
      let (d, r3) ← takeBytes len r2
      some (.ext (sgn 8 kb) d, r3)
    else if b = 0xcb then do
      let (bits, r) ← readBE 8 bs
      some (.float bits, r)
    else if b = 0xcc then do
      let (u, r) ← readBE 1 bs
      some (.int u, r)
    else if b = 0xcd then do
      let (u, r) ← readBE 2 bs
      some (.int u, r)
    else if b = 0xce then do
      let (u, r) ← readBE 4 bs
      some (.int u, r)
    else if b = 0xcf then do
      let (u, r) ← readBE 8 bs
      some (.int (sgn 64 u), r)
    else if b = 0xd0 then do
      let (u, r) ← readBE 1 bs
      some (.int (sgn 8 u), r)
    else if b = 0xd1 then do
      let (u, r) ← readBE 2 bs
      some (.int (sgn 16 u), r)
    else if b = 0xd2 then do
      let (u, r) ← readBE 4 bs
      some (.int (sgn 32 u), r)
    else if b = 0xd3 then do
      let (u, r) ← readBE 8 bs
      some (.int (sgn 64 u), r)
    else if b = 0xd4 then do
      let (kb, r) ← readBE 1 bs
      let (d, r2) ← takeBytes 1 r
      some (.ext (sgn 8 kb) d, r2)
    else if b = 0xd5 then do
      let (kb, r) ← readBE 1 bs
      let (d, r2) ← takeBytes 2 r
      some (.ext (sgn 8 kb) d, r2)
    else if b = 0xd6 then do
      let (kb, r) ← readBE 1 bs
      let (d, r2) ← takeBytes 4 r
      some (.ext (sgn 8 kb) d, r2)
    else if b = 0xd7 then do
      let (kb, r) ← readBE 1 bs
      let (d, r2) ← takeBytes 8 r
      some (.ext (sgn 8 kb) d, r2)
    else if b = 0xd8 then do
      let (kb, r) ← readBE 1 bs
      let (d, r2) ← takeBytes 16 r
      some (.ext (sgn 8 kb) d, r2)
    else if b = 0xd9 then do
      let (len, r) ← readBE 1 bs
      let (d, r2) ← takeBytes len r
      some (.str d, r2)
    else if b = 0xda then do
      let (len, r) ← readBE 2 bs
      let (d, r2) ← takeBytes len r
      some (.str d, r2)
    else if b = 0xdb then do
      let (len, r) ← readBE 4 bs
      let (d, r2) ← takeBytes len r
      some (.str d, r2)
    else if b = 0xdc then do
      let (n, r) ← readBE 2 bs
      some (.arr n, r)
    else if b = 0xdd then do
      let (n, r) ← readBE 4 bs
      some (.arr n, r)
    else if b = 0xde then do
      let (n, r) ← readBE 2 bs
      some (.map n, r)
    else if b = 0xdf then do
      let (n, r) ← readBE 4 bs
      some (.map n, r)
    else if 0xe0 ≤ b ∧ b ≤ 0xff then some (.int ((b : Int) - 256), bs)
    else none

/-- Fueled decoding loop over a byte list. -/
def unpackAux : Nat → List Nat → Option (List MPValue)
  | _, [] => some []
  | 0, _ :: _ => none
  | fuel + 1, bs =>
    match decodeValue bs with
    | some (v, rest) => (unpackAux fuel rest).map (v :: ·)
    | none => none

/-- Decoding of a whole byte list to the sequence of values it holds:
the unpack test helper of src/unnamed/part_002, looping the decoder
until end of input and failing on any decode error. -/
def unpack (bs : List Nat) : Option (List MPValue) := unpackAux bs.length bs

example : unpack (pack [.int 65536]) = some [.int 65536] := by decide
example : unpack (pack [.int (-65536)]) = some [.int (-65536)] := by decide
example : unpack (pack [.ext 1 [7, 8, 9]]) = some [.ext 1 [7, 8, 9]] := by decide

/-! ## Decoded Go values

Reflected Go values as they appear as arguments of API calls and as
decoded results: the domain of the reflective msgpack Encode and of
the decoded interface values that fixError inspects. The bad
constructor stands for a Go value of a type the reflective encoder
cannot encode (such as a channel); the int and uint constructors are
kept separate because fixError matches the dynamic Go types int64 and
uint64 separately. -/
inductive DVal where
  | nil
  | bool (b : Bool)
  | int (n : Int)
  | uint (n : Nat)
  | float (bits : Nat)
  | str (s : String)
  | bin (bs : List Nat)
  | list (vs : List DVal)
  | bad (typeName : String)

/-- UTF-8 bytes of one character. -/
def utf8Bytes (c : Char) : List Nat :=
  let n := c.toNat
  if n < 0x80 then [n]
  else if n < 0x800 then [0xc0 + n / 64, 0x80 + n % 64]
  else if n < 0x10000 then [0xe0 + n / 4096, 0x80 + n / 64 % 64, 0x80 + n % 64]
  else [0xf0 + n / 262144, 0x80 + n / 4096 % 64, 0x80 + n / 64 % 64, 0x80 + n % 64]

/-- Byte content of a Go string. -/
def strBytes (s : String) : List Nat := (s.data.map utf8Bytes).flatten

/-- MessagePack encoding of a string value (PackString on the method
name in Batch.call). Modelled from the spec, section 4.1. -/
def packString (s : String) : List Nat := packStrBytes (strBytes s)

mutual
/-- Reflective msgpack encoding of one Go value. Modelled from the
spec: the reflective Encode of the msgpack package is not under src;
it emits the codec forms of section 4.1 and fails on a value of an
unsupported type. -/
def encodeDVal : DVal → Except String (List Nat)
  | .nil => .ok [0xc0]
  | .bool b => .ok (if b then [0xc3] else [0xc2])
  | .int n => .ok (packInt n)
  | .uint n => .ok (packUint (n % 18446744073709551616))
  | .float bits => .ok (0xcb :: be8 (bits % 18446744073709551616))
  | .str s => .ok (packStrBytes (strBytes s))
  | .bin bs => .ok (packBinBytes bs)
  | .list vs =>
    match encodeDList vs with
    | .ok parts => .ok (packArrayLen vs.length ++ parts)
    | .error e => .error e
  | .bad t => .error ("msgpack: cannot encode type " ++ t)

def encodeDList : List DVal → Except String (List Nat)
  | [] => .ok []
  | v :: vs =>
    match encodeDVal v, encodeDList vs with
    | .ok b, .ok r => .ok (b ++ r)
    | .error e, _ => .error e
    | _, .error e => .error e
end

mutual
/-- Go fmt %v rendering of a decoded value, as used for the message
part of application errors. Modelled from the spec for the composite
cases; the claims only use it symbolically. -/
def formatV : DVal → String
  | .nil => "<nil>"
  | .bool b => if b then "true" else "false"
  | .int n => toString n
  | .uint n => toString n
  | .float bits => toString bits
  | .str s => s
  | .bin bs => toString bs
  | .list vs => "[" ++ formatVList vs ++ "]"
  | .bad t => t

def formatVList : List DVal → String
  | [] => ""
  | [v] => formatV v
  | v :: vs => formatV v ++ " " ++ formatVList vs
end

/-! ## Error kinds and fixError -/

/-- Modelled from the spec: the error kind constant for the exception
kind comes from the generated API bindings, which are not under src;
the peer tags application errors with a small integer kind. -/
def exceptionError : Int := 0

/-- Modelled from the spec: the error kind constant for the
validation kind, from the generated API bindings. -/
def validationError : Int := 1

/-- Go error values as seen by fixError: an rpc.Error carrying the
decoded error value of the response, or any other error rendered by
its message. -/
inductive GoError where
  | rpcError (value : DVal)
  | plain (s : String)

/-- Embedding of fixError of src/nvim/nvim.go lines 541 to 553: an
rpc.Error whose value is a two element array headed by the exception
or the validation kind, as an int64 or a uint64, is rewritten to an
error naming the method and the kind; every other error is returned
unchanged. -/
def fixError (sm : String) : Option GoError → Option GoError
  | some (.rpcError v) =>
    match v with
    | .list [a0, a1] =>
      match a0 with
      | .int k =>
        if k = exceptionError then
          some (.plain ("nvim:" ++ sm ++ " exception: " ++ formatV a1))
        else if k = validationError then
          some (.plain ("nvim:" ++ sm ++ " validation: " ++ formatV a1))
        else some (.rpcError v)
      | .uint k =>
        if (k : Int) = exceptionError then
          some (.plain ("nvim:" ++ sm ++ " exception: " ++ formatV a1))
        else if (k : Int) = validationError then
          some (.plain ("nvim:" ++ sm ++ " validation: " ++ formatV a1))
        else some (.rpcError v)
      | _ => some (.rpcError v)
    | _ => some (.rpcError v)
  | e => e

/-- Embedding of the private call method of Nvim (src/nvim/nvim.go
line 419): the endpoint call outcome is passed through fixError for
the service method. -/
def Nvim.callFix (sm : String) (epResult : Option GoError) : Option GoError :=
  fixError sm epResult

/-! ## Batch builder -/

/-- Embedding of the Batch state of src/nvim/nvim.go: the queued
service method names, the queued result targets (modelled by the
current contents of the caller variables they point at), the encoded
payload buffer that the encoder writes into, and the first encode
error. -/
structure Batch where
  sms : List String
  results : List DVal
  buf : List Nat
  err : Option String

/-- The freshly created batch of NewBatch: everything empty. -/
def Batch.empty : Batch := ⟨[], [], [], none⟩

/-- The Go package level emptyArgs value, an empty argument slice. -/
def emptyArgs : List DVal := []

/-- Encoding of the elements of an argument slice, stopping at the
first element the reflective encoder rejects and keeping the bytes
written before it. -/
def encodeElems : List DVal → List Nat × Option String
  | [] => ([], none)
  | v :: vs =>
    match encodeDVal v with
    | .ok bs =>
      let r := encodeElems vs
      (bs ++ r.1, r.2)
    | .error e => ([], some e)

/-- Encoding of a whole argument slice: the array length header
followed by the element encodings, with the first element error
reported. -/
def encodeArgsB (args : List DVal) : List Nat × Option String :=
  let r := encodeElems args
  (packArrayLen args.length ++ r.1, r.2)

/-- Embedding of the private call method of Batch (src/nvim/nvim.go
lines 503 to 515): a no-op when a prior encode already failed;
otherwise a nil argument slice is replaced by emptyArgs, the method
name and the result target are appended, the pair header, the method
string and the encoded arguments are appended to the payload, and the
encode error of the arguments is recorded. -/
def Batch.call (b : Batch) (sm : String) (result : DVal)
    (args : Option (List DVal)) : Batch :=
  if b.err.isSome then b
  else
    let args := match args with
      | none => emptyArgs
      | some a => a
    let enc := encodeArgsB args
    { sms := b.sms ++ [sm]
      results := b.results ++ [result]
      buf := b.buf ++ packArrayLen 2 ++ packString sm ++ enc.1
      err := enc.2 }

/-- Embedding of batchArg.MarshalMsgPack (src/nvim/nvim.go lines 522
to 525): an array length header for the call count followed by the
raw pre-encoded payload bytes. -/
def batchArgBytes (n : Nat) (p : List Nat) : List Nat :=
  packArrayLen n ++ p

/-- The failure descriptor of the nvim_call_atomic reply. -/
structure ReplyError where
  index : Int
  type : Int
  message : String

/-- The decoded nvim_call_atomic reply: the delivered results and the
optional failure descriptor. -/
structure Reply where
  results : List DVal
  error : Option ReplyError

/-- Outcome of Execute as seen by the caller. -/
inductive ExecOutcome where
  | ok
  | encodeErr (s : String)
  | callErr (s : String)
  | plainErr (s : String)
  | batchErr (index : Int) (msg : String)

/-- What one Execute run did: the request sent to the peer if any
(verb and encoded single argument), the final contents of the caller
result variables, and the returned outcome. -/
structure ExecResult where
  request : Option (String × List Nat)
  targets : List DVal
  outcome : ExecOutcome

/-- Positional decode of the delivered reply results into the result
targets. Modelled from the spec: the msgpack decode of a wire array
into an existing slice of targets is not under src; it fills the
targets positionally and leaves targets beyond the delivered count at
their prior contents. -/
def populate : List DVal → List DVal → List DVal
  | ts, [] => ts
  | [], _ => []
  | _ :: ts, d :: ds => d :: populate ts ds

/-- Embedding of Batch.Execute (src/nvim/nvim.go lines 453 to 499).
The deferred reset always leaves the empty batch as the new state. A
poisoned batch returns its encode error without any request. Otherwise
one nvim_call_atomic request is sent whose single argument is the
marshalled batchArg; the call outcome is supplied as input. A
transport level failure is returned as is. On a reply the delivered
results are decoded into the targets; no failure descriptor means
success; a descriptor with an out-of-range index or a kind other than
exception and validation yields a plain formatted error, and any
other descriptor yields a BatchError naming the failing method. -/
def Batch.Execute (b : Batch) (call : Except String Reply) :
    ExecResult × Batch :=
  match b.err with
  | some e => (⟨none, b.results, .encodeErr e⟩, Batch.empty)
  | none =>
    let req := ("nvim_call_atomic", batchArgBytes b.sms.length b.buf)
    match call with
    | .error s => (⟨some req, b.results, .callErr s⟩, Batch.empty)
    | .ok reply =>
      let targets := populate b.results reply.results
      match reply.error with
      | none => (⟨some req, targets, .ok⟩, Batch.empty)
      | some e =>
        if e.index < 0 ∨ (b.sms.length : Int) ≤ e.index ∨
            (e.type ≠ exceptionError ∧ e.type ≠ validationError) then
          (⟨some req, targets,
            .plainErr ("nvim:nvim_call_atomic " ++ toString e.index ++ " "
              ++ toString e.type ++ " " ++ e.message)⟩, Batch.empty)
        else
          let errorType := if e.type = validationError then "validation"
            else "exception"
          (⟨some req, targets,
            .batchErr e.index ("nvim:" ++ b.sms.getD e.index.toNat "" ++ " "
              ++ errorType ++ ": " ++ e.message)⟩, Batch.empty)

/-! ## Close -/

/-- Environment of one Close run: whether the client owns a child
process, the stream close error, the process wait error, whether a
Serve task was started, and the Serve channel outcome (none models
the ten second timeout of the select). -/
structure CloseEnv where
  hasCmd : Bool
  epCloseErr : Option String
  cmdWaitErr : Option String
  hasServeCh : Bool
  serveChErr : Option (Option String)

/-- Which cleanup steps a Close run performed. -/
structure CloseTrace where
  closedEp : Bool
  waitedCmd : Bool
  waitedServe : Bool

/-- Embedding of Nvim.Close (src/nvim/nvim.go lines 79 to 113): the
endpoint is always closed first; when a child process exists its exit
is awaited and its error kept only when no earlier error exists; when
a Serve task exists its terminal error (or the timeout error when the
channel yields nothing within the grace period) is kept only when no
earlier error exists. The bounded ten second kill timer and the wait
timeout are abstracted to the serveChErr input. -/
def Nvim.Close (env : CloseEnv) : Option String × CloseTrace :=
  let err0 := env.epCloseErr
  let err1 := if env.hasCmd then
      (match err0 with
        | none => env.cmdWaitErr
        | some e => some e)
    else err0
  let err2 := if env.hasServeCh then
      (let errServe := match env.serveChErr with
        | some r => r
        | none => some "nvim: Serve did not exit"
      match err1 with
        | none => errServe
        | some e => some e)
    else err1
  (err2, ⟨true, env.hasCmd, env.hasServeCh⟩)

/-! ## Extension payload codec -/

/-- Embedding of decodeExt (src/nvim/nvim.go lines 611 to 632):
decodes a MessagePack encoded number from the raw extension payload
bytes; unknown shapes are an error. The input list holds byte values
below 256. -/
def decodeExt : List Nat → Except String Int
  | [b] =>
    if b ≤ 0x7f then .ok (b : Int)
    else if 0xe0 ≤ b then .ok ((b : Int) - 256)
    else .error "go-client/nvim: error decoding extension bytes"
  | [c, b] =>
    if c = 0xcc then .ok (b : Int)
    else if c = 0xd0 then .ok (sgn 8 b)
    else .error "go-client/nvim: error decoding extension bytes"
  | [c, b1, b2] =>
    if c = 0xcd then .ok ((b1 * 256 + b2 : Nat) : Int)
    else if c = 0xd1 then .ok (sgn 16 (b1 * 256 + b2))
    else .error "go-client/nvim: error decoding extension bytes"
  | [c, b1, b2, b3, b4] =>
    if c = 0xce then
      .ok ((b1 * 16777216 + b2 * 65536 + b3 * 256 + b4 : Nat) : Int)
    else if c = 0xd2 then
      .ok (sgn 32 (b1 * 16777216 + b2 * 65536 + b3 * 256 + b4))
    else .error "go-client/nvim: error decoding extension bytes"
  | _ => .error "go-client/nvim: error decoding extension bytes"

/-- Embedding of encodeExt (src/nvim/nvim.go lines 635 to 637): the
fixed five byte signed 32-bit wire form, one marker byte then the
four big-endian bytes of the value; the Go arithmetic right shift on
int is floor division and the byte conversion keeps the low eight
bits. -/
def encodeExt (n : Int) : List Nat :=
  [0xd2, (n / 16777216 % 256).toNat, (n / 65536 % 256).toNat,
    (n / 256 % 256).toNat, (n % 256).toNat]

/-! ## Method wrappers -/

/-- A Go variadic interface slice: nil or a list of values. -/
def GoSlice := Option (List DVal)

/-- Encoding shape of a possibly nil slice as one call parameter.
Modelled from the spec: the reflective encoder writes a nil slice as
the nil value and a non-nil slice as an array. -/
def encSlice : GoSlice → DVal
  | none => .nil
  | some l => .list l

/-- Embedding of Nvim.Call (src/nvim/nvim.go lines 563 to 568): a nil
argument slice is replaced by an empty one, then the call goes out
with the function name and the argument slice as parameters. The
model returns the service method and its parameter values. -/
def Nvim.Call (fname : String) (args : GoSlice) : String × List DVal :=
  let args : GoSlice := match args with
    | none => some []
    | some a => some a
  ("nvim_call_function", [.str fname, encSlice args])

/-- Embedding of Nvim.CallDict (src/nvim/nvim.go lines 579 to 584). -/
def Nvim.CallDict (dict : List DVal) (fname : String) (args : GoSlice) :
    String × List DVal :=
  let args : GoSlice := match args with
    | none => some []
    | some a => some a
  ("nvim_call_dict_function", [.str fname, .list dict, encSlice args])

/-- Embedding of Nvim.ExecuteLua (src/nvim/nvim.go lines 595 to
600). -/
def Nvim.ExecuteLua (code : String) (args : GoSlice) : String × List DVal :=
  let args : GoSlice := match args with
    | none => some []
    | some a => some a
  ("nvim_execute_lua", [.str code, encSlice args])

/-- Embedding of Batch.Call (src/nvim/nvim.go lines 571 to 576): the
nil guard then the append through the private call method. -/
def Batch.Call (b : Batch) (fname : String) (result : DVal)
    (args : GoSlice) : Batch :=
  let args : GoSlice := match args with
    | none => some []
    | some a => some a
  b.call "nvim_call_function" result (some [.str fname, encSlice args])

/-- Embedding of Batch.CallDict (src/nvim/nvim.go lines 587 to
592). -/
def Batch.CallDict (b : Batch) (dict : List DVal) (fname : String)
    (result : DVal) (args : GoSlice) : Batch :=
  let args : GoSlice := match args with
    | none => some []
    | some a => some a
  b.call "nvim_call_dict_function" result
    (some [.str fname, .list dict, encSlice args])

/-- Embedding of Batch.ExecuteLua (src/nvim/nvim.go lines 603 to
608). -/
def Batch.ExecuteLua (b : Batch) (code : String) (result : DVal)
    (args : GoSlice) : Batch :=
  let args : GoSlice := match args with
    | none => some []
    | some a => some a
  b.call "nvim_execute_lua" result (some [.str code, encSlice args])

/-! ## Theorems -/

/-- The documented boundary values of the round-trip property: every
supported value kind, with the widths 0, 127, 128, 255, 256, 65535,
65536 and the negative analogues for signed integers, the small
negative fixed-form boundaries, the length-class boundaries of
strings, binary, extensions and the array and map headers. -/
def roundTripValues : List MPValue :=
  [.int 0, .int 1, .int 127, .int 128, .int 255, .int 256,
   .int 65535, .int 65536, .int 4294967295, .int 4294967296,
   .int (-1), .int (-32), .int (-33), .int (-127), .int (-128),
   .int (-129), .int (-255), .int (-256), .int (-65535), .int (-65536),
   .int (-65537), .int (-2147483648), .int (-2147483649),
   .nil, .bool true, .bool false,
   .float 0, .float 4614256656552045848,
   .str [], .str [49], .str (List.replicate 31 97),
   .str (List.replicate 32 97), .str (List.replicate 256 97),
   .bin [], .bin [49], .bin (List.replicate 255 97),
   .bin (List.replicate 256 97),
   .ext 1 [], .ext 2 [49], .ext 3 [49, 50], .ext 4 [1, 2, 3],
   .ext 5 (List.replicate 4 7), .ext 6 (List.replicate 8 7),
   .ext 7 (List.replicate 16 7), .ext 7 (List.replicate 17 7),
   .arr 0, .arr 15, .arr 16, .arr 65535, .arr 65536,
   .map 0, .map 15, .map 16, .map 65535, .map 65536]

/-- C6: for every supported value kind at its documented boundary
widths, decoding the encoding of the value yields the value back. -/
theorem c6_decode_encode_roundtrip (v : MPValue) (hv : v ∈ roundTripValues) :
    unpack (pack [v]) = some [v] := by
  revert v
  decide

/-- Witness for C6 at the boundary value 65536. -/
theorem c6_decode_encode_roundtrip_witness :
    unpack (pack [.int 65536]) = some [.int 65536] :=
  c6_decode_encode_roundtrip (.int 65536) (by decide)

/-- C8: the extension payload encoder and decoder are mutually
inverse on the signed 32-bit range, the encoder always producing the
five byte signed 32-bit wire form. -/
theorem c8_ext_roundtrip (n : Int) (h1 : -2147483648 ≤ n)
    (h2 : n < 2147483648) : decodeExt (encodeExt n) = .ok n := by
  show decodeExt [0xd2, (n / 16777216 % 256).toNat, (n / 65536 % 256).toNat,
    (n / 256 % 256).toNat, (n % 256).toNat] = .ok n
  have e1 : (0xd2 : Nat) = 0xce ↔ False := by decide
  have e2 : (0xd2 : Nat) = 0xd2 ↔ True := by decide
  simp only [decodeExt, e1, e2, if_false, if_true, sgn]
  have h24 : (0 : Int) ≤ n / 16777216 % 256 := Int.emod_nonneg _ (by decide)
  have h16 : (0 : Int) ≤ n / 65536 % 256 := Int.emod_nonneg _ (by decide)
  have h8 : (0 : Int) ≤ n / 256 % 256 := Int.emod_nonneg _ (by decide)
  have h0 : (0 : Int) ≤ n % 256 := Int.emod_nonneg _ (by decide)
  split <;> rename_i hlt
  · congr 1
    omega
  · congr 1
    omega

/-- Witness for C8 at the value -123456. -/
theorem c8_ext_roundtrip_witness :
    decodeExt (encodeExt (-123456)) = .ok (-123456) :=
  c8_ext_roundtrip (-123456) (by decide) (by decide)

/-- C4: every run of Execute leaves the batch reset to the empty,
reusable state, whatever the outcome was. -/
theorem c4_execute_resets (b : Batch) (r : Except String Reply) :
    (Batch.Execute b r).2 = Batch.empty := by
  unfold Batch.Execute
  repeat' split
  all_goals rfl

/-- C3: a batch whose recorded encode error is set ignores every
further call (method names, result targets and payload bytes are all
unchanged) and Execute returns that error with no request sent to the
peer. -/
theorem c3_poisoned_batch (b : Batch) (e : String) (hb : b.err = some e) :
    (∀ sm result args, b.call sm result args = b) ∧
    ∀ r, (Batch.Execute b r).1.outcome = .encodeErr e ∧
      (Batch.Execute b r).1.request = none := by
  constructor
  · intro sm result args
    unfold Batch.call
    simp [hb]
  · intro r
    unfold Batch.Execute
    rw [hb]
    exact ⟨rfl, rfl⟩

/-- A batch poisoned by one unencodable argument, for the C3
witness. -/
def poisonedDemo : Batch :=
  Batch.empty.call "nvim_get_var" .nil (some [.bad "chan int"])

/-- Witness for C3: the poisoned demo batch ignores a further call
and Execute reports the captured encode error without a request. -/
theorem c3_poisoned_batch_witness :
    (poisonedDemo.call "nvim_set_var" .nil none = poisonedDemo ∧
      (Batch.Execute poisonedDemo (.ok ⟨[], none⟩)).1.outcome =
        .encodeErr "msgpack: cannot encode type chan int" ∧
      (Batch.Execute poisonedDemo (.ok ⟨[], none⟩)).1.request = none) := by
  have h := c3_poisoned_batch poisonedDemo
    "msgpack: cannot encode type chan int" (by rfl)
  exact ⟨h.1 "nvim_set_var" .nil none, h.2 (.ok ⟨[], none⟩)⟩

/-- One queued batch call: service method, caller result target with
its default contents, and the argument slice. -/
structure CallSpec where
  sm : String
  target : DVal
  args : Option (List DVal)

/-- The argument slice after the nil guard of Batch.call. -/
def specArgs (c : CallSpec) : List DVal :=
  match c.args with
  | none => emptyArgs
  | some a => a

/-- The payload bytes one queued call contributes: a two element
array header, the method string, the encoded argument array. -/
def pairBytes (c : CallSpec) : List Nat :=
  packArrayLen 2 ++ packString c.sm ++ (encodeArgsB (specArgs c)).1

/-- A batch built by queuing the given calls on a fresh batch. -/
def runBatch (calls : List CallSpec) : Batch :=
  calls.foldl (fun b c => b.call c.sm c.target c.args) Batch.empty

/-- Accumulation lemma: queuing encodable calls on an unpoisoned
batch appends the method names, the targets and the per-call payload
bytes in order. -/
theorem runBatch_accum (calls : List CallSpec) (b : Batch)
    (hb : b.err = none)
    (h : ∀ c ∈ calls, (encodeArgsB (specArgs c)).2 = none) :
    calls.foldl (fun b c => b.call c.sm c.target c.args) b =
      ⟨b.sms ++ calls.map (·.sm), b.results ++ calls.map (·.target),
        b.buf ++ (calls.map pairBytes).flatten, none⟩ := by
  induction calls generalizing b with
  | nil =>
    obtain ⟨sms, res, buf, err⟩ := b
    simp only [Batch.err] at hb
    subst hb
    simp
  | cons c cs ih =>
    obtain ⟨sms, res, buf, err⟩ := b
    simp only [Batch.err] at hb
    subst hb
    have hce : (encodeArgsB (specArgs c)).2 = none := h c (by simp)
    have hargs : (match c.args with
        | none => emptyArgs
        | some a => a) = specArgs c := rfl
    have hcall : Batch.call ⟨sms, res, buf, none⟩ c.sm c.target c.args =
        ⟨sms ++ [c.sm], res ++ [c.target],
          buf ++ packArrayLen 2 ++ packString c.sm ++
            (encodeArgsB (specArgs c)).1, none⟩ := by
      unfold Batch.call
      simp only [Option.isSome_none, Bool.false_eq_true, if_false, hargs, hce]
    simp only [List.foldl_cons, hcall]
    rw [ih _ rfl (fun d hd => h d (by simp [hd]))]
    simp [pairBytes, List.append_assoc]

/-- C2: Execute sends one request to the nvim_call_atomic verb whose
single argument is the call count header followed by the raw
concatenated pre-encoded pairs, each pair a two element array of the
method string and the argument array. -/
theorem c2_execute_wire (calls : List CallSpec) (r : Except String Reply)
    (h : ∀ c ∈ calls, (encodeArgsB (specArgs c)).2 = none) :
    ((runBatch calls).Execute r).1.request =
      some ("nvim_call_atomic",
        packArrayLen calls.length ++ (calls.map pairBytes).flatten) := by
  have hrb := runBatch_accum calls Batch.empty rfl h
  unfold runBatch
  rw [hrb]
  rcases r with s | ⟨rs, er⟩
  · simp [Batch.Execute, batchArgBytes, Batch.empty]
  · rcases er with _ | e
    · simp [Batch.Execute, batchArgBytes, Batch.empty]
    · unfold Batch.Execute
      simp only [batchArgBytes, Batch.empty]
      split <;> simp

/-- Demonstration calls for the C2 witness. -/
def demoCalls : List CallSpec :=
  [⟨"nvim_set_var", .nil, some [.str "x", .int 1]⟩,
   ⟨"nvim_get_var", .nil, none⟩]

/-- Witness for C2 on a concrete two call batch. -/
theorem c2_execute_wire_witness :
    ((runBatch demoCalls).Execute (.ok ⟨[], none⟩)).1.request =
      some ("nvim_call_atomic",
        packArrayLen demoCalls.length ++ (demoCalls.map pairBytes).flatten) :=
  c2_execute_wire demoCalls (.ok ⟨[], none⟩) (by decide)

/-- Filling targets below the delivered count takes the delivered
value. -/
theorem populate_getD_lt (ts ds : List DVal) (j : Nat)
    (hd : j < ds.length) (ht : j < ts.length) :
    (populate ts ds).getD j .nil = ds.getD j .nil := by
  induction ts generalizing ds j with
  | nil => simp at ht
  | cons t ts ih =>
    cases ds with
    | nil => simp at hd
    | cons d ds =>
      cases j with
      | zero => rfl
      | succ j =>
        simpa [populate] using ih ds j (by simpa using hd) (by simpa using ht)

/-- Targets at and beyond the delivered count keep their prior
contents. -/
theorem populate_getD_ge (ts ds : List DVal) (j : Nat)
    (hd : ds.length ≤ j) :
    (populate ts ds).getD j .nil = ts.getD j .nil := by
  induction ts generalizing ds j with
  | nil => cases ds <;> rfl
  | cons t ts ih =>
    cases ds with
    | nil => rfl
    | cons d ds =>
      cases j with
      | zero => simp at hd
      | succ j =>
        simpa [populate] using ih ds j (by simpa using hd)

/-- C1: on a reply reporting a failure at a valid index with the
exception or the validation kind, where the peer delivered exactly
the results before the failing call, Execute returns a BatchError at
that index whose wrapped error names the failing method, targets
below the index take the delivered results and targets at and above
the index keep their caller-supplied defaults. -/
theorem c1_batch_partial_failure (b : Batch) (rs : List DVal)
    (e : ReplyError) (hb : b.err = none)
    (hlen : b.results.length = b.sms.length)
    (hi0 : 0 ≤ e.index) (hin : e.index < (b.sms.length : Int))
    (ht : e.type = exceptionError ∨ e.type = validationError)
    (hd : rs.length = e.index.toNat) :
    ((b.Execute (.ok ⟨rs, some e⟩)).1.outcome =
      .batchErr e.index ("nvim:" ++ b.sms.getD e.index.toNat "" ++ " " ++
        (if e.type = validationError then "validation" else "exception") ++
        ": " ++ e.message)) ∧
    (∀ j, j < e.index.toNat →
      (b.Execute (.ok ⟨rs, some e⟩)).1.targets.getD j .nil =
        rs.getD j .nil) ∧
    (∀ j, e.index.toNat ≤ j →
      (b.Execute (.ok ⟨rs, some e⟩)).1.targets.getD j .nil =
        b.results.getD j .nil) := by
  have hguard : ¬(e.index < 0 ∨ (b.sms.length : Int) ≤ e.index ∨
      (e.type ≠ exceptionError ∧ e.type ≠ validationError)) := by
    push_neg
    refine ⟨by omega, by omega, fun hx => ?_⟩
    rcases ht with ht | ht
    · exact absurd ht hx
    · exact ht
  have hres : (b.Execute (.ok ⟨rs, some e⟩)).1 =
      ⟨some ("nvim_call_atomic", batchArgBytes b.sms.length b.buf),
        populate b.results rs,
        .batchErr e.index ("nvim:" ++ b.sms.getD e.index.toNat "" ++ " " ++
          (if e.type = validationError then "validation" else "exception") ++
          ": " ++ e.message)⟩ := by
    unfold Batch.Execute
    rw [hb]
    simp only [if_neg hguard]
  refine ⟨by rw [hres], fun j hj => ?_, fun j hj => ?_⟩
  · rw [hres]
    exact populate_getD_lt _ _ _ (by omega) (by omega)
  · rw [hres]
    exact populate_getD_ge _ _ _ (by omega)

/-- A three call batch state for the C1 witness, mirroring the spec
scenario of a partial failure at index one. -/
def demoBatch : Batch :=
  ⟨["nvim_buf_set_lines", "nvim_set_var", "nvim_get_var"],
    [.str "d0", .str "d1", .str "d2"], [], none⟩

/-- The failure descriptor of the C1 witness: index one, validation
kind. -/
def demoErr : ReplyError := ⟨1, 1, "oops"⟩

/-- Witness for C1: on the three call demo batch with a validation
failure at index one and one delivered result, the first target is
populated, the third keeps its default, and the outcome is the named
BatchError. -/
theorem c1_batch_partial_failure_witness :
    ((demoBatch.Execute (.ok ⟨[.str "r0"], some demoErr⟩)).1.outcome =
      .batchErr demoErr.index
        ("nvim:" ++ demoBatch.sms.getD demoErr.index.toNat "" ++ " " ++
          (if demoErr.type = validationError then "validation"
            else "exception") ++ ": " ++ demoErr.message)) ∧
    ((demoBatch.Execute
        (.ok ⟨[.str "r0"], some demoErr⟩)).1.targets.getD 0 .nil =
      ([.str "r0"] : List DVal).getD 0 .nil) ∧
    ((demoBatch.Execute
        (.ok ⟨[.str "r0"], some demoErr⟩)).1.targets.getD 2 .nil =
      demoBatch.results.getD 2 .nil) := by
  have h := c1_batch_partial_failure demoBatch [.str "r0"] demoErr rfl
    (by decide) (by decide) (by decide) (Or.inr (by decide)) (by decide)
  exact ⟨h.1, h.2.1 0 (by decide), h.2.2 2 (by decide)⟩

/-- A failure descriptor Execute may turn into a BatchError: index in
range for the n queued calls and kind equal to the exception or the
validation kind. -/
def validDescriptor (n : Nat) (e : ReplyError) : Prop :=
  0 ≤ e.index ∧ e.index < (n : Int) ∧
    (e.type = exceptionError ∨ e.type = validationError)

/-- C9: Execute builds a BatchError exactly for a valid failure
descriptor; any other index or kind yields the plain formatted error,
and every BatchError index is within the bounds of the queued method
list. -/
theorem c9_batcherror_guard (b : Batch) (rs : List DVal) (e : ReplyError)
    (hb : b.err = none) :
    (validDescriptor b.sms.length e →
      ∃ m, (b.Execute (.ok ⟨rs, some e⟩)).1.outcome = .batchErr e.index m) ∧
    (¬ validDescriptor b.sms.length e →
      (b.Execute (.ok ⟨rs, some e⟩)).1.outcome =
        .plainErr ("nvim:nvim_call_atomic " ++ toString e.index ++ " " ++
          toString e.type ++ " " ++ e.message)) ∧
    (∀ i m, (b.Execute (.ok ⟨rs, some e⟩)).1.outcome = .batchErr i m →
      0 ≤ i ∧ i < (b.sms.length : Int)) := by
  by_cases hg : e.index < 0 ∨ (b.sms.length : Int) ≤ e.index ∨
      (e.type ≠ exceptionError ∧ e.type ≠ validationError)
  · have hres : (b.Execute (.ok ⟨rs, some e⟩)).1.outcome =
        .plainErr ("nvim:nvim_call_atomic " ++ toString e.index ++ " " ++
          toString e.type ++ " " ++ e.message) := by
      unfold Batch.Execute
      rw [hb]
      simp only [if_pos hg]
    refine ⟨fun hv => ?_, fun _ => hres, fun i m him => ?_⟩
    · obtain ⟨h1, h2, h3⟩ := hv
      rcases hg with hg | hg | ⟨hx, hy⟩
      · omega
      · omega
      · rcases h3 with h3 | h3
        · exact absurd h3 hx
        · exact absurd h3 hy
    · rw [hres] at him
      exact ExecOutcome.noConfusion him
  · have hres : (b.Execute (.ok ⟨rs, some e⟩)).1.outcome =
        .batchErr e.index ("nvim:" ++ b.sms.getD e.index.toNat "" ++ " " ++
          (if e.type = validationError then "validation" else "exception") ++
          ": " ++ e.message) := by
      unfold Batch.Execute
      rw [hb]
      simp only [if_neg hg]
    push_neg at hg
    refine ⟨fun _ => ⟨_, hres⟩, fun hnv => ?_, fun i m him => ?_⟩
    · exact absurd ⟨hg.1, hg.2.1, by tauto⟩ hnv
    · rw [hres] at him
      simp only [ExecOutcome.batchErr.injEq] at him
      obtain ⟨h1, h2⟩ := him
      subst h1
      exact ⟨hg.1, hg.2.1⟩

/-- Witness for C9: an out of range index on the three call demo
batch yields the plain formatted error, not a BatchError. -/
theorem c9_batcherror_guard_witness :
    (demoBatch.Execute (.ok ⟨[], some ⟨5, 0, "x"⟩⟩)).1.outcome =
      .plainErr ("nvim:nvim_call_atomic " ++ toString (5 : Int) ++ " " ++
        toString (0 : Int) ++ " " ++ "x") :=
  (c9_batcherror_guard demoBatch [] ⟨5, 0, "x"⟩ rfl).2.1
    (by unfold validDescriptor; decide)

/-- The error values fixError rewrites: a two element array headed by
the exception or the validation kind as an int64 or a uint64. -/
def appErrorShape : DVal → Prop
  | .list [a0, _] =>
    match a0 with
    | .int k => k = exceptionError ∨ k = validationError
    | .uint k => (k : Int) = exceptionError ∨ (k : Int) = validationError
    | _ => False
  | _ => False

/-- C7: a response error of the exception or the validation kind is
returned as an error naming the failing method and the kind,
formatted with the kind name and the message; every other error value
is returned unchanged. -/
theorem c7_fixerror_kinds (sm : String) (m : DVal) :
    (Nvim.callFix sm (some (.rpcError (.list [.int exceptionError, m]))) =
      some (.plain ("nvim:" ++ sm ++ " exception: " ++ formatV m))) ∧
    (Nvim.callFix sm
        (some (.rpcError (.list [.uint exceptionError.toNat, m]))) =
      some (.plain ("nvim:" ++ sm ++ " exception: " ++ formatV m))) ∧
    (Nvim.callFix sm (some (.rpcError (.list [.int validationError, m]))) =
      some (.plain ("nvim:" ++ sm ++ " validation: " ++ formatV m))) ∧
    (Nvim.callFix sm
        (some (.rpcError (.list [.uint validationError.toNat, m]))) =
      some (.plain ("nvim:" ++ sm ++ " validation: " ++ formatV m))) ∧
    (∀ v, ¬ appErrorShape v →
      Nvim.callFix sm (some (.rpcError v)) = some (.rpcError v)) ∧
    (∀ s, Nvim.callFix sm (some (.plain s)) = some (.plain s)) ∧
    Nvim.callFix sm none = none := by
  refine ⟨rfl, rfl, rfl, rfl, fun v hv => ?_, fun s => rfl, rfl⟩
  cases v with
  | list vs =>
    rcases vs with _ | ⟨a0, _ | ⟨a1, _ | ⟨a2, rest⟩⟩⟩
    · rfl
    · rfl
    · cases a0 with
      | int k =>
        show (if k = exceptionError then _ else
          if k = validationError then _ else _) = _
        rw [if_neg (fun hk => hv (Or.inl hk)),
          if_neg (fun hk => hv (Or.inr hk))]
      | uint k =>
        show (if (k : Int) = exceptionError then _ else
          if (k : Int) = validationError then _ else _) = _
        rw [if_neg (fun hk => hv (Or.inl hk)),
          if_neg (fun hk => hv (Or.inr hk))]
      | nil => rfl
      | bool b => rfl
      | float bits => rfl
      | str s => rfl
      | bin bs => rfl
      | list ws => rfl
      | bad t => rfl
    · rfl
  | nil => rfl
  | bool b => rfl
  | int n => rfl
  | uint n => rfl
  | float bits => rfl
  | str s => rfl
  | bin bs => rfl
  | bad t => rfl

/-- Witness for C7: a validation kind error on a concrete method. -/
theorem c7_fixerror_kinds_witness :
    Nvim.callFix "nvim_set_var"
        (some (.rpcError (.list [.int validationError, .str "boom"]))) =
      some (.plain ("nvim:" ++ "nvim_set_var" ++ " validation: " ++
        formatV (.str "boom"))) :=
  (c7_fixerror_kinds "nvim_set_var" (.str "boom")).2.2.1

/-- Resolution of the Serve channel wait: a received terminal error,
or the fixed timeout error when nothing arrives within the grace
period. -/
def resolveServe : Option (Option String) → Option String
  | some r => r
  | none => some "nvim: Serve did not exit"

/-- First set error of a list of optional errors. -/
def firstSome : List (Option String) → Option String
  | [] => none
  | none :: rest => firstSome rest
  | some e :: _ => some e

/-- C5: when the client owns a child process and a Serve task, Close
performs all three cleanup steps whatever errors occur, and returns
the first set error in the fixed order stream close, process wait,
Serve exit. -/
theorem c5_close_cleanup (env : CloseEnv) (hc : env.hasCmd = true)
    (hs : env.hasServeCh = true) :
    Nvim.Close env =
      (firstSome [env.epCloseErr, env.cmdWaitErr,
        resolveServe env.serveChErr], ⟨true, true, true⟩) := by
  unfold Nvim.Close
  rw [hc, hs]
  cases h0 : env.epCloseErr <;> cases h1 : env.cmdWaitErr <;>
    rcases h2 : env.serveChErr with _ | (_ | r) <;>
    simp [firstSome, resolveServe]

/-- Witness for C5: with errors at every step, the stream close error
wins and all three steps are recorded as performed. -/
theorem c5_close_cleanup_witness :
    Nvim.Close ⟨true, some "A", some "B", true, some (some "C")⟩ =
      (some "A", ⟨true, true, true⟩) :=
  c5_close_cleanup ⟨true, some "A", some "B", true, some (some "C")⟩ rfl rfl

/-- C10: every method wrapper invoked without variadic arguments
substitutes the empty argument list, so the parameters carry an empty
array value, which encodes as the empty array header and not as the
nil byte. -/
theorem c10_empty_args_substitution :
    (∀ fname, Nvim.Call fname none =
      ("nvim_call_function", [.str fname, .list []])) ∧
    (∀ dict fname, Nvim.CallDict dict fname none =
      ("nvim_call_dict_function", [.str fname, .list dict, .list []])) ∧
    (∀ code, Nvim.ExecuteLua code none =
      ("nvim_execute_lua", [.str code, .list []])) ∧
    (∀ b fname result, Batch.Call b fname result none =
      b.call "nvim_call_function" result (some [.str fname, .list []])) ∧
    (∀ b dict fname result, Batch.CallDict b dict fname result none =
      b.call "nvim_call_dict_function" result
        (some [.str fname, .list dict, .list []])) ∧
    (∀ b code result, Batch.ExecuteLua b code result none =
      b.call "nvim_execute_lua" result (some [.str code, .list []])) ∧
    (∀ b sm result, Batch.call b sm result none =
      Batch.call b sm result (some emptyArgs)) ∧
    encodeDVal (.list []) = .ok [0x90] ∧
    encodeDVal .nil = .ok [0xc0] := by
  refine ⟨fun _ => rfl, fun _ _ => rfl, fun _ => rfl, fun _ _ _ => rfl,
    fun _ _ _ _ => rfl, fun _ _ _ => rfl, fun b sm result => rfl, rfl, rfl⟩

end NvimClient
